import Mathlib

/-!
Verification of the RFM scoring and segmentation engine of the
customer-churn-revenue-recovery repository (olist_analytics).

The embedding translates, over exact rationals, the two analyzer variants:
the MVP one in src/analytics/rfm_analysis.py (class RFMAnalyzer) and the
enterprise one in src/analytics/enhanced_rfm.py (class EnterpriseRFMAnalyzer),
together with the exception classes of src/core/exceptions.py and the default
segment thresholds of src/core/config.py.

Modelling conventions:
- pandas/numpy float64 columns are modelled as exact rationals; integer score
  labels as integers.  Where float division by zero yields NaN (never an
  exception) in numpy, rational division yields 0 - both branches are
  non-raising, and no claim below depends on such a value.
- a Python exception escaping a modelled function is an explicit value of
  type PyError; exception-free code is a plain function.
-/

namespace Olist

/-- Untyped Python/pandas/numpy errors (e.g. ValueError) as raised by library
calls inside the analyzers. -/
inductive PyError where
  | valueError (msg : String)
  deriving DecidableEq, Repr

/-- The exception classes defined in src/core/exceptions.py.  This is the
complete list of classes declared in that module (each a subclass of the
base OlistAnalyticsError). -/
inductive OlistException where
  | olistAnalyticsError
  | dataValidationError
  | configurationError
  | analysisError
  | dataIntegrityError
  | cacheError
  | databaseError
  | authenticationError
  | authorizationError
  deriving DecidableEq, Repr

/-- The Python class name of each exception class in src/core/exceptions.py. -/
def OlistException.className : OlistException → String
  | .olistAnalyticsError => "OlistAnalyticsError"
  | .dataValidationError => "DataValidationError"
  | .configurationError => "ConfigurationError"
  | .analysisError => "AnalysisError"
  | .dataIntegrityError => "DataIntegrityError"
  | .cacheError => "CacheError"
  | .databaseError => "DatabaseError"
  | .authenticationError => "AuthenticationError"
  | .authorizationError => "AuthorizationError"

/-- Segment thresholds: the keys read from config.analytics.segment_thresholds
(src/core/config.py lines 41-47); the defaults there coincide with the
fallback defaults used by the .get calls in enhanced_rfm.py. -/
structure SegmentThresholds where
  champion_r_min : ℤ
  champion_f_min : ℤ
  champion_m_min : ℤ
  at_risk_r_max : ℤ
  lost_r_max : ℤ
  deriving DecidableEq, Repr

/-- The default thresholds from src/core/config.py (AnalyticsConfig). -/
def defaultThresholds : SegmentThresholds :=
  { champion_r_min := 4
    champion_f_min := 4
    champion_m_min := 4
    at_risk_r_max := 2
    lost_r_max := 1 }

/-- One row of the CustomerMetrics table produced by calculate_rfm /
_calculate_rfm_metrics: recency, frequency, monetary per customer. -/
structure MetricsRow where
  customer_id : String
  recency : ℚ
  frequency : ℚ
  monetary : ℚ
  deriving DecidableEq, Repr

/-- One row of the scored table: metrics plus the three 1..K scores and the
concatenated composite score string. -/
structure ScoredRow where
  customer_id : String
  recency : ℚ
  frequency : ℚ
  monetary : ℚ
  r_score : ℤ
  f_score : ℤ
  m_score : ℤ
  rfm_score : String
  deriving DecidableEq, Repr

/-- The adaptive bin count of _assign_rfm_scores (enhanced_rfm.py line 270):
n_bins = min(5, max(2, n_customers // 20)). -/
def nBins (n : ℕ) : ℕ := min 5 (max 2 (n / 20))

/-- The per-cell post-processing of a score column (rfm_analysis.py lines
60-62, enhanced_rfm.py line 321):
pd.to_numeric(col, errors='coerce').fillna(3).clip(1, K).
A null cell becomes 3, then every value is clamped into the closed
interval from 1 to K. -/
def clipScore (K : ℤ) (x : Option ℤ) : ℤ := max 1 (min K (x.getD 3))

/-- Modelled from the spec (section 4.2): the neutral score is described as
ceil(K/2), e.g. 3 for K=5.  For K at least 0 this equals (K+1)/2 in floor
division. -/
def neutralScore (K : ℤ) : ℤ := (K + 1) / 2

/-- The per-row segment rule chain of segment_customers inside
_create_segments (enhanced_rfm.py lines 338-381), with thresholds looked up
from the configuration. -/
def segmentCustomersEnterprise (t : SegmentThresholds) (row : ScoredRow) : String :=
  let r := row.r_score
  let f := row.f_score
  let m := row.m_score
  if t.champion_r_min ≤ r ∧ t.champion_f_min ≤ f ∧ t.champion_m_min ≤ m then "Champions"
  else if 4 ≤ r ∧ 4 ≤ f then "Loyal Customers"
  else if 4 ≤ r ∧ 2 ≤ f then "Potential Loyalists"
  else if 4 ≤ r ∧ f = 1 then "New Customers"
  else if 3 ≤ r ∧ 2 ≤ f then "Promising"
  else if 3 ≤ r ∧ f = 1 ∧ 4 ≤ m then "Need Attention"
  else if r ≤ t.at_risk_r_max ∧ 3 ≤ f then "At Risk"
  else if r = 1 ∧ 4 ≤ f ∧ 4 ≤ m then "Cannot Lose Them"
  else if r ≤ t.lost_r_max then "Lost"
  else "Others"

/-- The per-row segment rule chain of segment_customers inside
create_segments (rfm_analysis.py lines 77-89), MVP variant. -/
def segmentCustomersSimple (row : ScoredRow) : String :=
  if row.rfm_score ∈ ["555", "554", "544", "545", "454", "455", "445"] then "Champions"
  else if 4 ≤ row.r_score ∧ 3 ≤ row.f_score then "Loyal Customers"
  else if 3 ≤ row.r_score ∧ 4 ≤ row.m_score then "Big Spenders"
  else if row.r_score ≤ 2 ∧ 3 ≤ row.f_score then "At Risk"
  else if row.r_score ≤ 2 then "Lost"
  else "Regular"

/-- The segment priority mapping applied after classification
(enhanced_rfm.py lines 386-399); pandas .map yields null for unknown keys,
hence the Option. -/
def segmentPriorityOf (s : String) : Option ℤ :=
  [("Champions", (1 : ℤ)), ("Loyal Customers", 2), ("Cannot Lose Them", 3),
   ("At Risk", 4), ("New Customers", 5), ("Potential Loyalists", 6),
   ("Need Attention", 7), ("Promising", 8), ("Others", 9), ("Lost", 10)].lookup s

/-- The whole _create_segments stage: one segment per row, plus priority. -/
def createSegmentsEnterprise (t : SegmentThresholds) (rows : List ScoredRow) :
    List (ScoredRow × String × Option ℤ) :=
  rows.map (fun row =>
    let s := segmentCustomersEnterprise t row
    (row, s, segmentPriorityOf s))

/-- The MVP create_segments stage: one segment per row. -/
def createSegmentsSimple (rows : List ScoredRow) : List (ScoredRow × String) :=
  rows.map (fun row => (row, segmentCustomersSimple row))

/-- The ordered rule table of the enterprise classifier: the conditions of
segment_customers (enhanced_rfm.py lines 342-381), in source order, each
paired with its segment name; the final catch-all is the else branch. -/
def enterpriseRules (t : SegmentThresholds) : List ((ℤ → ℤ → ℤ → Bool) × String) :=
  [ (fun r f m => decide (t.champion_r_min ≤ r ∧ t.champion_f_min ≤ f ∧ t.champion_m_min ≤ m),
      "Champions"),
    (fun r f _ => decide (4 ≤ r ∧ 4 ≤ f), "Loyal Customers"),
    (fun r f _ => decide (4 ≤ r ∧ 2 ≤ f), "Potential Loyalists"),
    (fun r f _ => decide (4 ≤ r ∧ f = 1), "New Customers"),
    (fun r f _ => decide (3 ≤ r ∧ 2 ≤ f), "Promising"),
    (fun r f m => decide (3 ≤ r ∧ f = 1 ∧ 4 ≤ m), "Need Attention"),
    (fun r f _ => decide (r ≤ t.at_risk_r_max ∧ 3 ≤ f), "At Risk"),
    (fun r f m => decide (r = 1 ∧ 4 ≤ f ∧ 4 ≤ m), "Cannot Lose Them"),
    (fun r _ _ => decide (r ≤ t.lost_r_max), "Lost"),
    (fun _ _ _ => true, "Others") ]

/-- Insertion step for ascending sort over rationals. -/
def insertAsc (x : ℚ) : List ℚ → List ℚ
  | [] => [x]
  | a :: t => if x ≤ a then x :: a :: t else a :: insertAsc x t

/-- Ascending sort (used to model quantile computation over sorted values). -/
def sortAsc (l : List ℚ) : List ℚ := l.foldr insertAsc []

/-- Insertion step for descending sort over rationals. -/
def insertDesc (x : ℚ) : List ℚ → List ℚ
  | [] => [x]
  | a :: t => if a ≤ x then x :: a :: t else a :: insertDesc x t

/-- Descending sort: sort_values('monetary', ascending=False) restricted to
the monetary column (only that column is consumed downstream). -/
def sortDesc (l : List ℚ) : List ℚ := l.foldr insertDesc []

/-- Linear-interpolation quantile of a list at probability p, as computed by
Series.quantile / np.percentile with the default linear interpolation:
position h = p * (n - 1) over the ascending-sorted values, interpolating
between the two neighbouring order statistics.  None on an empty input. -/
def quantileQ (l : List ℚ) (p : ℚ) : Option ℚ :=
  match l with
  | [] => none
  | _ :: _ =>
    let s := sortAsc l
    let h := p * ((l.length : ℚ) - 1)
    let i := ⌊h⌋
    let lo := s.getD i.toNat 0
    let hi := s.getD (i.toNat + 1) lo
    some (lo + (h - (i : ℚ)) * (hi - lo))

/-- np.percentile with linear interpolation: quantile at p/100. -/
def percentileQ (l : List ℚ) (p : ℚ) : Option ℚ := quantileQ l (p / 100)

/-- Collapse equal adjacent bin edges, as duplicates='drop' does on the
(nondecreasing) quantile edge sequence. -/
def dedupAdjacent : List ℚ → List ℚ
  | [] => []
  | [a] => [a]
  | a :: b :: t => if a = b then dedupAdjacent (b :: t) else a :: dedupAdjacent (b :: t)

/-- Bin assignment against a strictly increasing edge sequence with
right-closed intervals and the lowest edge included (the searchsorted
discipline of pandas _bins_to_cuts): a value x gets the label of the first
bin j (1-based) with x ≤ edges[j]; values above the last edge (or an edge
table too short) yield null. -/
def binLabel (edges : List ℚ) (labels : List ℤ) (x : ℚ) : Option ℤ :=
  match (List.range edges.length).find? (fun j => decide (1 ≤ j) && decide (x ≤ edges.getD j 0)) with
  | some j => labels.get? (j - 1)
  | none => none

/-- pd.qcut(x, q, labels, duplicates='drop'): quantile edges at j/q for j in
0..q, duplicate edges dropped; raises ValueError when the surviving bin count
does not match the label count (and on empty input, where the quantile edges
degenerate). -/
def qcut (l : List ℚ) (q : ℕ) (labels : List ℤ) : Except PyError (List (Option ℤ)) :=
  match l with
  | [] => .error (.valueError "qcut on empty input")
  | _ :: _ =>
    let edges := (List.range (q + 1)).filterMap (fun j => quantileQ l ((j : ℚ) / (q : ℚ)))
    let uniq := dedupAdjacent edges
    if uniq.length - 1 = labels.length then
      .ok (l.map (fun x => binLabel uniq labels x))
    else
      .error (.valueError "Bin labels must be one fewer than the number of bin edges")

/-- pd.cut(x, bins=q, labels): q equal-width bins spanning the data range,
the lowest edge pushed down by 0.1% of the range (or the degenerate-range
adjustment when min = max); raises ValueError("Cannot cut empty array") on
an empty input. -/
def cut (l : List ℚ) (q : ℕ) (labels : List ℤ) : Except PyError (List (Option ℤ)) :=
  match l with
  | [] => .error (.valueError "Cannot cut empty array")
  | x₀ :: rest =>
    let mn := rest.foldl min x₀
    let mx := rest.foldl max x₀
    let edges :=
      if mn = mx then
        let a := if mn = 0 then mn - 1 / 1000 else mn - |mn| / 1000
        let b := if mx = 0 then mx + 1 / 1000 else mx + |mx| / 1000
        (List.range (q + 1)).map (fun j => a + (j : ℚ) * ((b - a) / (q : ℚ)))
      else
        (List.range (q + 1)).map (fun j =>
          if j = 0 then mn - (mx - mn) / 1000
          else mn + (j : ℚ) * ((mx - mn) / (q : ℚ)))
    .ok (l.map (fun x => binLabel edges labels x))

/-- Series.rank(method='first'): rank by value, ties broken by position;
the result is a permutation of 1..n (as rationals, since pandas ranks are
floats). -/
def rankFirst (l : List ℚ) : List ℚ :=
  (List.range l.length).map (fun i =>
    (((List.range l.length).filter (fun j =>
        decide (l.getD j 0 < l.getD i 0 ∨ (l.getD j 0 = l.getD i 0 ∧ j < i)))).length + 1 : ℕ))

/-- Series.fillna(v) on a (categorical) score column: nulls become v. -/
def fillna (v : ℤ) (l : List (Option ℤ)) : List (Option ℤ) :=
  l.map (fun x => some (x.getD v))

/-- The label list list(range(K, 0, -1)) = [K, ..., 1]. -/
def labelsDesc (K : ℕ) : List ℤ := (List.range K).map (fun i => (K : ℤ) - (i : ℤ))

/-- The label list list(range(1, K+1)) = [1, ..., K]. -/
def labelsAsc (K : ℕ) : List ℤ := (List.range K).map (fun i => (i : ℤ) + 1)

/-- The shared final stage of both scorers: zip the raw (possibly null)
binned labels back onto the metric rows, apply the to_numeric/fillna/clip
post-processing per cell, and build the concatenated composite score. -/
def buildScored (K : ℤ) (rows : List MetricsRow)
    (r f m : List (Option ℤ)) : List ScoredRow :=
  (rows.zip (r.zip (f.zip m))).map (fun p =>
    let rs := clipScore K p.2.1
    let fs := clipScore K p.2.2.1
    let ms := clipScore K p.2.2.2
    { customer_id := p.1.customer_id
      recency := p.1.recency
      frequency := p.1.frequency
      monetary := p.1.monetary
      r_score := rs
      f_score := fs
      m_score := ms
      rfm_score := toString rs ++ toString fs ++ toString ms })

/-- MVP r-score column (rfm_analysis.py lines 43-47): try qcut on recency
with labels [5,4,3,2,1]; on ValueError fall back to cut on the raw recency
and fill remaining nulls with 3. -/
def scoreR (rs : List ℚ) : Except PyError (List (Option ℤ)) :=
  match qcut rs 5 [5, 4, 3, 2, 1] with
  | .ok v => .ok v
  | .error _ => (cut rs 5 [5, 4, 3, 2, 1]).map (fillna 3)

/-- MVP f-score column (lines 49-52): qcut on the first-ranked frequency
with labels [1..5]; fallback cut on raw frequency plus fillna(3). -/
def scoreF (fs : List ℚ) : Except PyError (List (Option ℤ)) :=
  match qcut (rankFirst fs) 5 [1, 2, 3, 4, 5] with
  | .ok v => .ok v
  | .error _ => (cut fs 5 [1, 2, 3, 4, 5]).map (fillna 3)

/-- MVP m-score column (lines 54-57): qcut on monetary with labels [1..5];
fallback cut on raw monetary plus fillna(3). -/
def scoreM (ms : List ℚ) : Except PyError (List (Option ℤ)) :=
  match qcut ms 5 [1, 2, 3, 4, 5] with
  | .ok v => .ok v
  | .error _ => (cut ms 5 [1, 2, 3, 4, 5]).map (fillna 3)

/-- RFMAnalyzer.assign_scores (rfm_analysis.py lines 38-70): the three score
columns in order, then the shared post-processing and composite-score build;
an error escaping a fallback cut propagates to the caller. -/
def assignScores (rows : List MetricsRow) : Except PyError (List ScoredRow) :=
  match scoreR (rows.map (·.recency)),
        scoreF (rows.map (·.frequency)),
        scoreM (rows.map (·.monetary)) with
  | .ok r, .ok f, .ok m => .ok (buildScored 5 rows r f m)
  | .error e, _, _ => .error e
  | .ok _, .error e, _ => .error e
  | .ok _, .ok _, .error e => .error e

/-- The raw binned columns of _assign_rfm_scores (enhanced_rfm.py lines
272-317): a single try block computes all three via qcut (recency with
descending labels, frequency first-ranked); if any raises ValueError, all
three are recomputed via cut over first-ranked values with fillna(3). -/
def rfmRawScores (rows : List MetricsRow) :
    Except PyError (List (Option ℤ) × List (Option ℤ) × List (Option ℤ)) :=
  let K := nBins rows.length
  match qcut (rows.map (·.recency)) K (labelsDesc K),
        qcut (rankFirst (rows.map (·.frequency))) K (labelsAsc K),
        qcut (rows.map (·.monetary)) K (labelsAsc K) with
  | .ok r, .ok f, .ok m => .ok (r, f, m)
  | _, _, _ =>
    match cut (rankFirst (rows.map (·.recency))) K (labelsDesc K),
          cut (rankFirst (rows.map (·.frequency))) K (labelsAsc K),
          cut (rankFirst (rows.map (·.monetary))) K (labelsAsc K) with
    | .ok r, .ok f, .ok m => .ok (fillna 3 r, fillna 3 f, fillna 3 m)
    | .error e, _, _ => .error e
    | .ok _, .error e, _ => .error e
    | .ok _, .ok _, .error e => .error e

/-- EnterpriseRFMAnalyzer._assign_rfm_scores (enhanced_rfm.py lines 262-330):
adaptive bin count, quantile scoring with rank-based fallback, then the
shared post-processing clamp into [1, n_bins]. -/
def assignRfmScores (rows : List MetricsRow) : Except PyError (List ScoredRow) :=
  match rfmRawScores rows with
  | .ok (r, f, m) => .ok (buildScored (nBins rows.length) rows r f m)
  | .error e => .error e

/-- Series.cumsum with a running accumulator. -/
def cumsumFrom (acc : ℚ) : List ℚ → List ℚ
  | [] => []
  | a :: t => (acc + a) :: cumsumFrom (acc + a) t

/-- Series.cumsum. -/
def cumsum (l : List ℚ) : List ℚ := cumsumFrom 0 l

/-- Series.iloc with an integer position: nonnegative positions index from
the front, negative positions from the back; out-of-bounds positions raise
IndexError, modelled as none. -/
def ilocQ (l : List ℚ) (i : ℤ) : Option ℚ :=
  if 0 ≤ i then l.get? i.toNat
  else if (-i).toNat ≤ l.length then l.get? (l.length - (-i).toNat)
  else none

/-- _calculate_pareto_distribution (enhanced_rfm.py lines 466-484) over the
monetary column: sort descending, cumulative revenue, count the customers
whose cumulative revenue is at most 80% of the total, then the revenue of
the top int(n * 0.2) customers via iloc[top - 1].  The only raising
operation is the iloc (it raises on an empty table); float divisions
(including by a zero denominator) never raise in numpy and are modelled by
total rational division. -/
def calculateParetoDistribution (monetary : List ℚ) : Option (ℚ × ℚ × ℚ) :=
  let sorted := sortDesc monetary
  let cum := cumsum sorted
  let total := sorted.sum
  let count80 := (cum.filter (fun c => decide (c ≤ total * (4 / 5)))).length
  let pct80 := (count80 : ℚ) / (sorted.length : ℚ) * 100
  let top20 : ℤ := ⌊(sorted.length : ℚ) * (1 / 5)⌋
  match ilocQ cum (top20 - 1) with
  | none => none
  | some rev =>
    some (pct80, rev / total * 100, rev / total * 100 / 20)

/-- Modelled from the spec (section 4.4, the sentence behind claim C2): the
Pareto statistic as the size of the smallest prefix of the
monetary-descending customer list whose cumulative revenue reaches at least
80% of total revenue, expressed as a percentage of the population. -/
def specPareto80Pct (monetary : List ℚ) : Option ℚ :=
  let sorted := sortDesc monetary
  let cum := cumsum sorted
  let total := sorted.sum
  match (List.range cum.length).find? (fun k => decide (total * (4 / 5) ≤ cum.getD k 0)) with
  | some k => some (((k : ℚ) + 1) / (sorted.length : ℚ) * 100)
  | none => none

/-- One row of the segmented table consumed by _analyze_segments. -/
structure SegmentedRow where
  customer_id : String
  recency : ℚ
  frequency : ℚ
  monetary : ℚ
  segment : String
  deriving DecidableEq, Repr

/-- Keep the first occurrence of each value (worker with the set of values
already seen). -/
def uniqueFirstAux {α : Type} [DecidableEq α] (seen : List α) : List α → List α
  | [] => []
  | a :: t => if a ∈ seen then uniqueFirstAux seen t else a :: uniqueFirstAux (a :: seen) t

/-- Keep the first occurrence of each value, as Series.unique does. -/
def uniqueFirst {α : Type} [DecidableEq α] (l : List α) : List α := uniqueFirstAux [] l

/-- The per-segment statistics dict entry built inside the loop of
_analyze_segments (enhanced_rfm.py lines 446-459).  np.percentile raises on
an empty group, hence the Option. -/
structure SegmentStat where
  seg_name : String
  count : ℕ
  percentage : ℚ
  revenue : ℚ
  revenue_percentage : ℚ
  avg_ltv : ℚ
  avg_recency : ℚ
  avg_frequency : ℚ
  top_percentile_ltv : ℚ
  churn_risk : String
  deriving DecidableEq, Repr

/-- The statistics entry for one segment. -/
def segmentEntry (rows : List SegmentedRow) (s : String) : Option SegmentStat :=
  let grp := rows.filter (fun r => decide (r.segment = s))
  let mon := grp.map (·.monetary)
  match percentileQ mon 90 with
  | none => none
  | some p90 =>
    some { seg_name := s
           count := grp.length
           percentage := (grp.length : ℚ) / (rows.length : ℚ) * 100
           revenue := mon.sum
           revenue_percentage := mon.sum / (rows.map (·.monetary)).sum * 100
           avg_ltv := mon.sum / (grp.length : ℚ)
           avg_recency := (grp.map (·.recency)).sum / (grp.length : ℚ)
           avg_frequency := (grp.map (·.frequency)).sum / (grp.length : ℚ)
           top_percentile_ltv := p90
           churn_risk := if s ∈ ["At Risk", "Cannot Lose Them", "Lost"] then "High" else "Low" }

/-- Turn a list of optional values into an optional list (the loop of
_analyze_segments aborts with the library exception of the first failing
entry). -/
def seqOption {α : Type} : List (Option α) → Option (List α)
  | [] => some []
  | none :: _ => none
  | some a :: t => (seqOption t).map (fun l => a :: l)

/-- _analyze_segments (enhanced_rfm.py lines 436-464): the per-segment
statistics over the unique segment values in first-occurrence order,
followed by the Pareto metrics. -/
def analyzeSegments (rows : List SegmentedRow) :
    Option (List SegmentStat × (ℚ × ℚ × ℚ)) :=
  match seqOption ((uniqueFirst (rows.map (·.segment))).map (segmentEntry rows)) with
  | none => none
  | some stats =>
    match calculateParetoDistribution (rows.map (·.monetary)) with
    | none => none
    | some pareto => some (stats, pareto)

/-- One row of the merged orders-payments table inside _prepare_data;
order dates are whole days on an integer timeline. -/
structure OrderRow where
  customer_id : String
  order_date : ℤ
  payment_value : ℚ
  deriving DecidableEq, Repr

/-- _prepare_data (enhanced_rfm.py lines 195-226) after the inner join:
drop future-dated orders, then drop rows with payment_value ≤ 0.  (The
source applies each filter under an .any() guard; filtering an empty match
set is the identity, so the unconditional filter is equivalent.) -/
def prepareData (now : ℤ) (rows : List OrderRow) : List OrderRow :=
  (rows.filter (fun r => decide ¬ (now < r.order_date))).filter
    (fun r => decide ¬ (r.payment_value ≤ 0))

/-- Maximum of a list of integers, none on empty. -/
def listMaxZ : List ℤ → Option ℤ
  | [] => none
  | a :: t =>
    match listMaxZ t with
    | none => some a
    | some b => some (max a b)

/-- _calculate_rfm_metrics (enhanced_rfm.py lines 228-260) restricted to the
claimed columns: group the prepared rows by customer, recency = reference
date minus the latest order date, frequency = row count of the group,
monetary = summed payment values.  Group keys are kept in first-occurrence
order (pandas sorts them; the order is immaterial to every property proved
below).  The auxiliary customer-detail columns (first_order, last_order,
avg_order_value, lifetime_days), merged back one-to-one on customer_id, do
not affect the claimed fields and are omitted. -/
def calculateRfmMetrics (refDate : ℤ) (rows : List OrderRow) : List MetricsRow :=
  (uniqueFirst (rows.map (·.customer_id))).map (fun c =>
    let grp := rows.filter (fun r => decide (r.customer_id = c))
    { customer_id := c
      recency := ((refDate - (listMaxZ (grp.map (·.order_date))).getD 0 : ℤ) : ℚ)
      frequency := (grp.length : ℚ)
      monetary := (grp.map (·.payment_value)).sum })

/-! Helper lemmas -/

theorem clipScore_bounds (K : ℤ) (hK : 1 ≤ K) (x : Option ℤ) :
    1 ≤ clipScore K x ∧ clipScore K x ≤ K := by
  unfold clipScore
  omega

theorem find?_first_characterization {α : Type} (p : α → Bool) :
    ∀ (l : List α) (a : α), l.find? p = some a →
      ∃ i : Fin l.length, l.get i = a ∧ p a = true ∧
        ∀ k : Fin l.length, (k : ℕ) < (i : ℕ) → p (l.get k) = false
  | [], a, h => by simp [List.find?] at h
  | b :: l', a, h => by
    cases hb : p b with
    | true =>
      have ha : a = b := by
        have h' := h
        simp [List.find?, hb] at h'
        exact h'.symm
      subst ha
      exact ⟨⟨0, Nat.succ_pos _⟩, rfl, hb, fun k hk => absurd hk (Nat.not_lt_zero _)⟩
    | false =>
      have h' : l'.find? p = some a := by simpa [List.find?, hb] using h
      obtain ⟨i, hget, hp, hprev⟩ := find?_first_characterization p l' a h'
      refine ⟨⟨i + 1, Nat.succ_lt_succ i.isLt⟩, hget, hp, ?_⟩
      intro k hk
      match k with
      | ⟨0, _⟩ => exact hb
      | ⟨k' + 1, hk'⟩ =>
        exact hprev ⟨k', Nat.lt_of_succ_lt_succ hk'⟩ (Nat.lt_of_succ_lt_succ hk)

theorem enterpriseRules_find?_isSome (t : SegmentThresholds) (r f m : ℤ) :
    ((enterpriseRules t).find? (fun rule => rule.1 r f m)).isSome := by
  have hmem : ((fun (_ _ _ : ℤ) => true, "Others")) ∈ enterpriseRules t := by
    simp [enterpriseRules]
  match hfind : (enterpriseRules t).find? (fun rule => rule.1 r f m) with
  | none => exact absurd rfl (List.find?_eq_none.mp hfind _ hmem)
  | some rule => rw [hfind]; rfl

theorem segmentEnterprise_eq_find? (t : SegmentThresholds) (row : ScoredRow) :
    segmentCustomersEnterprise t row =
      (((enterpriseRules t).find? (fun rule =>
          rule.1 row.r_score row.f_score row.m_score)).map (fun rule => rule.2)).getD
        "Others" := by
  simp only [segmentCustomersEnterprise, enterpriseRules]
  split_ifs with h1 h2 h3 h4 h5 h6 h7 h8 h9
  · simp [List.find?, decide_eq_true h1]
  · simp [List.find?, decide_eq_false h1, decide_eq_true h2]
  · simp [List.find?, decide_eq_false h1, decide_eq_false h2, decide_eq_true h3]
  · simp [List.find?, decide_eq_false h1, decide_eq_false h2, decide_eq_false h3,
      decide_eq_true h4]
  · simp [List.find?, decide_eq_false h1, decide_eq_false h2, decide_eq_false h3,
      decide_eq_false h4, decide_eq_true h5]
  · simp [List.find?, decide_eq_false h1, decide_eq_false h2, decide_eq_false h3,
      decide_eq_false h4, decide_eq_false h5, decide_eq_true h6]
  · simp [List.find?, decide_eq_false h1, decide_eq_false h2, decide_eq_false h3,
      decide_eq_false h4, decide_eq_false h5, decide_eq_false h6, decide_eq_true h7]
  · simp [List.find?, decide_eq_false h1, decide_eq_false h2, decide_eq_false h3,
      decide_eq_false h4, decide_eq_false h5, decide_eq_false h6, decide_eq_false h7,
      decide_eq_true h8]
  · simp [List.find?, decide_eq_false h1, decide_eq_false h2, decide_eq_false h3,
      decide_eq_false h4, decide_eq_false h5, decide_eq_false h6, decide_eq_false h7,
      decide_eq_false h8, decide_eq_true h9]
  · simp [List.find?, decide_eq_false h1, decide_eq_false h2, decide_eq_false h3,
      decide_eq_false h4, decide_eq_false h5, decide_eq_false h6, decide_eq_false h7,
      decide_eq_false h8, decide_eq_false h9]

theorem mem_of_mem_uniqueFirstAux {α : Type} [DecidableEq α] :
    ∀ (l seen : List α) (x : α), x ∈ uniqueFirstAux seen l → x ∈ l
  | [], _, x, h => by simp [uniqueFirstAux] at h
  | a :: t, seen, x, h => by
    rw [uniqueFirstAux] at h
    by_cases ha : a ∈ seen
    · rw [if_pos ha] at h
      exact List.mem_cons_of_mem _ (mem_of_mem_uniqueFirstAux t seen x h)
    · rw [if_neg ha] at h
      rcases List.mem_cons.mp h with rfl | h'
      · exact List.mem_cons_self _ _
      · exact List.mem_cons_of_mem _ (mem_of_mem_uniqueFirstAux t (a :: seen) x h')

theorem mem_of_mem_uniqueFirst {α : Type} [DecidableEq α] {l : List α} {x : α}
    (h : x ∈ uniqueFirst l) : x ∈ l :=
  mem_of_mem_uniqueFirstAux l [] x h

theorem buildScored_range (K : ℤ) (hK : 1 ≤ K) (rows : List MetricsRow)
    (r f m : List (Option ℤ)) :
    ∀ row ∈ buildScored K rows r f m,
      (1 ≤ row.r_score ∧ row.r_score ≤ K) ∧ (1 ≤ row.f_score ∧ row.f_score ≤ K) ∧
      (1 ≤ row.m_score ∧ row.m_score ≤ K) := by
  intro row hrow
  simp only [buildScored, List.mem_map] at hrow
  obtain ⟨p, _, rfl⟩ := hrow
  exact ⟨clipScore_bounds K hK _, clipScore_bounds K hK _, clipScore_bounds K hK _⟩

/-! Claim theorems -/

/-- C5: the enterprise scorer uses exactly K = min(5, max(2, n // 20)) bins
(this is the literal definition of nBins, which assignRfmScores applies to
its row count); K always lies in [2, 5] and equals 5 exactly when the
population has at least 100 customers. -/
theorem n_bins_adaptive_range (n : ℕ) :
    nBins n = min 5 (max 2 (n / 20)) ∧
    2 ≤ nBins n ∧ nBins n ≤ 5 ∧ (nBins n = 5 ↔ 100 ≤ n) := by
  unfold nBins
  omega

/-- C5 witness: the bin-count characterization at the concrete population
size 100, the smallest population scored with 5 bins. -/
theorem n_bins_adaptive_range_witness :
    nBins 100 = min 5 (max 2 (100 / 20)) ∧
    2 ≤ nBins 100 ∧ nBins 100 ≤ 5 ∧ (nBins 100 = 5 ↔ 100 ≤ 100) :=
  n_bins_adaptive_range 100

/-- C3 counterexample: with K = 2 bins a score that is still null after the
fallback is imputed (via fillna(3) and the clamp into [1, K]) as 2, while the
claimed neutral score ceil(K/2) is 1. -/
theorem impute_neutral_mismatch :
    clipScore 2 none = 2 ∧ neutralScore 2 = 1 ∧ neutralScore 2 < clipScore 2 none := by
  decide

/-- C3 amended: a score cell that is still null is imputed as the constant 3
clamped into [1, K], i.e. min 3 K; this coincides with the spec's neutral
score ceil(K/2) exactly at K = 5 (the bin count of the MVP scorer). -/
theorem impute_is_min_three (K : ℤ) (hK : 1 ≤ K) :
    clipScore K none = min 3 K ∧ (K = 5 → clipScore K none = neutralScore K) := by
  constructor
  · unfold clipScore
    simp only [Option.getD]
    omega
  · rintro rfl
    decide

/-- C3 amended witness at K = 5 and K = 2. -/
theorem impute_is_min_three_witness :
    clipScore 5 none = min 3 5 ∧ (5 = (5 : ℤ) → clipScore 5 none = neutralScore 5) :=
  impute_is_min_three 5 (by decide)

/-- C10: with the default thresholds, the enterprise classifier never
returns "Cannot Lose Them" — every row lands in one of the other nine
segments: the Cannot Lose Them condition (r = 1, f ≥ 4, m ≥ 4) implies the
earlier At Risk condition (r ≤ 2, f ≥ 3), which wins under first-match
evaluation, so that branch is unreachable. -/
theorem cannot_lose_them_unreachable (row : ScoredRow) :
    segmentCustomersEnterprise defaultThresholds row ∈
      ["Champions", "Loyal Customers", "Potential Loyalists", "New Customers", "Promising",
       "Need Attention", "At Risk", "Lost", "Others"] := by
  simp only [segmentCustomersEnterprise, defaultThresholds]
  split_ifs with h1 h2 h3 h4 h5 h6 h7 h8 h9 <;> try simp
  exact absurd ⟨by omega, by omega⟩ h7

/-- C10 witness: the characterization at the concrete score triple
r = 1, f = 5, m = 5, which satisfies the Cannot Lose Them condition yet is
classified into the nine-segment list (as At Risk). -/
theorem cannot_lose_them_unreachable_witness :
    segmentCustomersEnterprise defaultThresholds ⟨"w", 400, 9, 900, 1, 5, 5, "155"⟩ ∈
      ["Champions", "Loyal Customers", "Potential Loyalists", "New Customers", "Promising",
       "Need Attention", "At Risk", "Lost", "Others"] :=
  cannot_lose_them_unreachable ⟨"w", 400, 9, 900, 1, 5, 5, "155"⟩

/-- C6: the enterprise classifier is first-match-wins over its ordered rule
table: the names appear in the documented order, and the segment assigned to
a row is the name of the first rule whose condition holds — every earlier
rule's condition is false.  In particular a row satisfying two rules gets
the earlier one's segment. -/
theorem segment_rules_first_match_wins (t : SegmentThresholds) (row : ScoredRow) :
    ((enterpriseRules t).map (fun rule => rule.2) =
      ["Champions", "Loyal Customers", "Potential Loyalists", "New Customers", "Promising",
       "Need Attention", "At Risk", "Cannot Lose Them", "Lost", "Others"]) ∧
    ∃ i : Fin (enterpriseRules t).length,
      segmentCustomersEnterprise t row = ((enterpriseRules t).get i).2 ∧
      ((enterpriseRules t).get i).1 row.r_score row.f_score row.m_score = true ∧
      ∀ k : Fin (enterpriseRules t).length, (k : ℕ) < (i : ℕ) →
        ((enterpriseRules t).get k).1 row.r_score row.f_score row.m_score = false := by
  refine ⟨by simp [enterpriseRules], ?_⟩
  obtain ⟨rule, hrule⟩ := Option.isSome_iff_exists.mp
    (enterpriseRules_find?_isSome t row.r_score row.f_score row.m_score)
  obtain ⟨i, hget, hp, hprev⟩ := find?_first_characterization _ _ _ hrule
  refine ⟨i, ?_, ?_, ?_⟩
  · rw [segmentEnterprise_eq_find?, hrule, hget]
    rfl
  · rw [hget]
    exact hp
  · exact hprev

/-- C6 witness: the characterization applied to a concrete row (scores
r=4, f=4, m=3, which satisfies both the Loyal Customers and the Potential
Loyalists conditions and receives the earlier segment). -/
theorem segment_rules_first_match_wins_witness :
    ((enterpriseRules defaultThresholds).map (fun rule => rule.2) =
      ["Champions", "Loyal Customers", "Potential Loyalists", "New Customers", "Promising",
       "Need Attention", "At Risk", "Cannot Lose Them", "Lost", "Others"]) ∧
    ∃ i : Fin (enterpriseRules defaultThresholds).length,
      segmentCustomersEnterprise defaultThresholds ⟨"w", 5, 4, 300, 4, 4, 3, "443"⟩ =
        ((enterpriseRules defaultThresholds).get i).2 ∧
      ((enterpriseRules defaultThresholds).get i).1 4 4 3 = true ∧
      ∀ k : Fin (enterpriseRules defaultThresholds).length, (k : ℕ) < (i : ℕ) →
        ((enterpriseRules defaultThresholds).get k).1 4 4 3 = false :=
  segment_rules_first_match_wins defaultThresholds ⟨"w", 5, 4, 300, 4, 4, 3, "443"⟩

/-- C7: both classifiers are total functions into their fixed segment sets
(with Regular / Others as catch-all), the assigned label depends only on the
score data of the row, and the segmentation stage maps each input row to
exactly one labelled output row. -/
theorem classifier_total_and_deterministic :
    (∀ row : ScoredRow, segmentCustomersSimple row ∈
        ["Champions", "Loyal Customers", "Big Spenders", "At Risk", "Lost", "Regular"]) ∧
    (∀ (t : SegmentThresholds) (row : ScoredRow), segmentCustomersEnterprise t row ∈
        ["Champions", "Loyal Customers", "Potential Loyalists", "New Customers", "Promising",
         "Need Attention", "At Risk", "Cannot Lose Them", "Lost", "Others"]) ∧
    (∀ (t : SegmentThresholds) (r₁ r₂ : ScoredRow),
        r₁.r_score = r₂.r_score → r₁.f_score = r₂.f_score → r₁.m_score = r₂.m_score →
        segmentCustomersEnterprise t r₁ = segmentCustomersEnterprise t r₂) ∧
    (∀ r₁ r₂ : ScoredRow,
        r₁.r_score = r₂.r_score → r₁.f_score = r₂.f_score → r₁.m_score = r₂.m_score →
        r₁.rfm_score = r₂.rfm_score →
        segmentCustomersSimple r₁ = segmentCustomersSimple r₂) ∧
    (∀ (t : SegmentThresholds) (rows : List ScoredRow),
        (createSegmentsEnterprise t rows).map (fun e => e.1) = rows ∧
        (createSegmentsSimple rows).map (fun e => e.1) = rows) := by
  refine ⟨?_, ?_, ?_, ?_, ?_⟩
  · intro row
    simp only [segmentCustomersSimple]
    split_ifs <;> simp
  · intro t row
    simp only [segmentCustomersEnterprise]
    split_ifs <;> simp
  · intro t r₁ r₂ h1 h2 h3
    simp only [segmentCustomersEnterprise, h1, h2, h3]
  · intro r₁ r₂ h1 h2 h3 h4
    simp only [segmentCustomersSimple, h1, h2, h3, h4]
  · intro t rows
    constructor <;> simp [createSegmentsEnterprise, createSegmentsSimple, Function.comp_def]

/-- C7 witness: determinism instantiated at two concrete rows that agree on
all score data but differ in customer identity and raw metrics. -/
theorem classifier_total_and_deterministic_witness :
    segmentCustomersEnterprise defaultThresholds ⟨"a", 3, 2, 100, 5, 5, 5, "555"⟩ =
      segmentCustomersEnterprise defaultThresholds ⟨"b", 7, 9, 50, 5, 5, 5, "555"⟩ :=
  classifier_total_and_deterministic.2.2.1 defaultThresholds
    ⟨"a", 3, 2, 100, 5, 5, 5, "555"⟩ ⟨"b", 7, 9, 50, 5, 5, 5, "555"⟩ rfl rfl rfl

/-- C1: every row returned by either scorer carries the three scores as
integers inside [1, K]: K = 5 for the MVP assign_scores and K = the adaptive
bin count for the enterprise _assign_rfm_scores, on every input table and on
both the quantile path and the fallback path (the post-processing clamp
applies identically to both paths). -/
theorem scores_within_range (rows : List MetricsRow) (out : List ScoredRow) :
    (assignScores rows = .ok out →
      ∀ row ∈ out,
        (1 ≤ row.r_score ∧ row.r_score ≤ 5) ∧
        (1 ≤ row.f_score ∧ row.f_score ≤ 5) ∧
        (1 ≤ row.m_score ∧ row.m_score ≤ 5)) ∧
    (assignRfmScores rows = .ok out →
      ∀ row ∈ out,
        (1 ≤ row.r_score ∧ row.r_score ≤ (nBins rows.length : ℤ)) ∧
        (1 ≤ row.f_score ∧ row.f_score ≤ (nBins rows.length : ℤ)) ∧
        (1 ≤ row.m_score ∧ row.m_score ≤ (nBins rows.length : ℤ))) := by
  constructor
  · intro hok
    unfold assignScores at hok
    split at hok <;> cases hok
    exact buildScored_range 5 (by norm_num) rows _ _ _
  · intro hok
    unfold assignRfmScores at hok
    split at hok <;> cases hok
    have hK : (1 : ℤ) ≤ (nBins rows.length : ℤ) := by
      have h2 : 2 ≤ nBins rows.length := by unfold nBins; omega
      exact_mod_cast Nat.le_of_succ_le h2
    exact buildScored_range _ hK rows _ _ _

/-- C1 witness: both scorers on a one-customer table; the single value per
column defeats quantile binning, so both take the fallback; the resulting
scores sit inside [1, 5] and [1, nBins 1] = [1, 2] respectively. -/
theorem scores_within_range_witness :
    ((1 ≤ (⟨"c", 10, 1, 100, 3, 3, 3, "333"⟩ : ScoredRow).r_score ∧
        (⟨"c", 10, 1, 100, 3, 3, 3, "333"⟩ : ScoredRow).r_score ≤ 5) ∧
      (1 ≤ (⟨"c", 10, 1, 100, 3, 3, 3, "333"⟩ : ScoredRow).f_score ∧
        (⟨"c", 10, 1, 100, 3, 3, 3, "333"⟩ : ScoredRow).f_score ≤ 5) ∧
      (1 ≤ (⟨"c", 10, 1, 100, 3, 3, 3, "333"⟩ : ScoredRow).m_score ∧
        (⟨"c", 10, 1, 100, 3, 3, 3, "333"⟩ : ScoredRow).m_score ≤ 5)) ∧
    ((1 ≤ (⟨"c", 10, 1, 100, 2, 1, 1, "211"⟩ : ScoredRow).r_score ∧
        (⟨"c", 10, 1, 100, 2, 1, 1, "211"⟩ : ScoredRow).r_score ≤ 2) ∧
      (1 ≤ (⟨"c", 10, 1, 100, 2, 1, 1, "211"⟩ : ScoredRow).f_score ∧
        (⟨"c", 10, 1, 100, 2, 1, 1, "211"⟩ : ScoredRow).f_score ≤ 2) ∧
      (1 ≤ (⟨"c", 10, 1, 100, 2, 1, 1, "211"⟩ : ScoredRow).m_score ∧
        (⟨"c", 10, 1, 100, 2, 1, 1, "211"⟩ : ScoredRow).m_score ≤ 2)) :=
  ⟨(scores_within_range [⟨"c", 10, 1, 100⟩] [⟨"c", 10, 1, 100, 3, 3, 3, "333"⟩]).1
      (by with_unfolding_all rfl) ⟨"c", 10, 1, 100, 3, 3, 3, "333"⟩ (List.mem_singleton.mpr rfl),
    (scores_within_range [⟨"c", 10, 1, 100⟩] [⟨"c", 10, 1, 100, 2, 1, 1, "211"⟩]).2
      (by with_unfolding_all rfl) ⟨"c", 10, 1, 100, 2, 1, 1, "211"⟩ (List.mem_singleton.mpr rfl)⟩

/-- C4 counterexample: on an empty metrics table, assign_scores does not
raise an EmptyDatasetError; the quantile path fails, and the fallback cut in
the except branch raises pandas' own untyped ValueError, which propagates to
the caller. -/
theorem assign_scores_empty_library_error :
    assignScores [] = .error (.valueError "Cannot cut empty array") := rfl

/-- C4 amended: applying assign_scores to an empty metrics table fails with
an untyped library ValueError from the fallback binning, and no exception
class named EmptyDatasetError exists anywhere in src/core/exceptions.py. -/
theorem assign_scores_empty_untyped :
    (∃ msg, assignScores [] = .error (.valueError msg)) ∧
    ∀ e : OlistException, (e.className == "EmptyDatasetError") = false := by
  refine ⟨⟨"Cannot cut empty array", rfl⟩, ?_⟩
  intro e
  cases e <;> decide

/-- C8: after _prepare_data drops non-positive payments, every customer row
produced by _calculate_rfm_metrics has frequency at least 1 (its group is
non-empty) and strictly positive monetary (a non-empty sum of strictly
positive payment values). -/
theorem metrics_freq_monetary_pos (now refDate : ℤ) (rows : List OrderRow) :
    ∀ mrow ∈ calculateRfmMetrics refDate (prepareData now rows),
      1 ≤ mrow.frequency ∧ 0 < mrow.monetary := by
  intro mrow hm
  simp only [calculateRfmMetrics, List.mem_map] at hm
  obtain ⟨c, hc, rfl⟩ := hm
  obtain ⟨r, hr, hrc⟩ := List.mem_map.mp (mem_of_mem_uniqueFirst hc)
  have hrgrp : r ∈ (prepareData now rows).filter (fun r => decide (r.customer_id = c)) :=
    List.mem_filter.mpr ⟨hr, by simp [hrc]⟩
  have hne : (prepareData now rows).filter (fun r => decide (r.customer_id = c)) ≠ [] :=
    List.ne_nil_of_mem hrgrp
  constructor
  · show (1 : ℚ) ≤ (((prepareData now rows).filter
        (fun r => decide (r.customer_id = c))).length : ℚ)
    exact_mod_cast List.length_pos.mpr hne
  · apply List.sum_pos
    · intro x hx
      obtain ⟨r', hr', rfl⟩ := List.mem_map.mp hx
      have hmem : r' ∈ prepareData now rows := List.mem_of_mem_filter hr'
      have hpay : ¬ r'.payment_value ≤ 0 := by
        have := (List.mem_filter.mp hmem).2
        simpa using this
      exact not_le.mp hpay
    · simpa [List.map_eq_nil_iff] using hne

theorem mem_of_mem_insertDesc (x : ℚ) : ∀ (l : List ℚ) (y : ℚ),
    y ∈ insertDesc x l → y = x ∨ y ∈ l := by
  intro l
  induction l with
  | nil => intro y h; exact Or.inl (List.mem_singleton.mp h)
  | cons a t ih =>
    intro y h
    rw [insertDesc] at h
    by_cases hax : a ≤ x
    · rw [if_pos hax] at h
      rcases List.mem_cons.mp h with rfl | h'
      · exact Or.inl rfl
      · exact Or.inr h'
    · rw [if_neg hax] at h
      rcases List.mem_cons.mp h with rfl | h'
      · exact Or.inr (List.mem_cons_self _ _)
      · rcases ih y h' with h'' | h''
        · exact Or.inl h''
        · exact Or.inr (List.mem_cons_of_mem _ h'')

theorem mem_of_mem_sortDesc : ∀ (l : List ℚ) (y : ℚ), y ∈ sortDesc l → y ∈ l := by
  intro l
  induction l with
  | nil => intro y h; exact absurd h (List.not_mem_nil y)
  | cons a t ih =>
    intro y h
    rcases mem_of_mem_insertDesc a (sortDesc t) y h with rfl | h'
    · exact List.mem_cons_self _ _
    · exact List.mem_cons_of_mem _ (ih y h')

theorem length_insertDesc (x : ℚ) : ∀ l : List ℚ, (insertDesc x l).length = l.length + 1
  | [] => rfl
  | a :: t => by
    rw [insertDesc]
    by_cases hax : a ≤ x
    · rw [if_pos hax]
      rfl
    · rw [if_neg hax]
      simp [length_insertDesc x t]

theorem length_sortDesc : ∀ l : List ℚ, (sortDesc l).length = l.length
  | [] => rfl
  | a :: t => by
    show (insertDesc a (sortDesc t)).length = t.length + 1
    rw [length_insertDesc, length_sortDesc t]

theorem length_cumsumFrom : ∀ (l : List ℚ) (acc : ℚ), (cumsumFrom acc l).length = l.length
  | [], _ => rfl
  | a :: t, acc => by simp [cumsumFrom, length_cumsumFrom t]

theorem length_cumsum (l : List ℚ) : (cumsum l).length = l.length :=
  length_cumsumFrom l 0

theorem le_of_mem_cumsumFrom : ∀ (l : List ℚ), (∀ v ∈ l, 0 ≤ v) →
    ∀ (acc : ℚ), ∀ y ∈ cumsumFrom acc l, acc ≤ y
  | [], _, acc, y, h => by simp [cumsumFrom] at h
  | a :: t, hl, acc, y, h => by
    rw [cumsumFrom] at h
    have ha : 0 ≤ a := hl a (List.mem_cons_self _ _)
    rcases List.mem_cons.mp h with rfl | h'
    · linarith
    · have := le_of_mem_cumsumFrom t (fun v hv => hl v (List.mem_cons_of_mem _ hv)) (acc + a) y h'
      linarith

theorem sorted_cumsumFrom : ∀ (l : List ℚ), (∀ v ∈ l, 0 ≤ v) →
    ∀ acc : ℚ, List.Sorted (· ≤ ·) (cumsumFrom acc l)
  | [], _, acc => by simp [cumsumFrom]
  | a :: t, hl, acc => by
    rw [cumsumFrom]
    refine List.sorted_cons.mpr ⟨?_,
      sorted_cumsumFrom t (fun v hv => hl v (List.mem_cons_of_mem _ hv)) (acc + a)⟩
    intro b hb
    exact le_of_mem_cumsumFrom t (fun v hv => hl v (List.mem_cons_of_mem _ hv)) (acc + a) b hb

theorem length_filter_eq_takeWhile_of_sorted (x : ℚ) :
    ∀ L : List ℚ, List.Sorted (· ≤ ·) L →
      (L.filter (fun c => decide (c ≤ x))).length =
        (L.takeWhile (fun c => decide (c ≤ x))).length
  | [], _ => rfl
  | a :: t, hs => by
    obtain ⟨hall, ht⟩ := List.sorted_cons.mp hs
    by_cases hax : a ≤ x
    · simp only [List.filter_cons, List.takeWhile_cons, decide_eq_true hax]
      simp [length_filter_eq_takeWhile_of_sorted x t ht]
    · have hfil : t.filter (fun c => decide (c ≤ x)) = [] := by
        refine List.filter_eq_nil_iff.mpr ?_
        intro b hb
        have hab : a ≤ b := hall b hb
        simp only [decide_eq_true_eq]
        intro hbx
        exact hax (le_trans hab hbx)
      simp only [List.filter_cons, List.takeWhile_cons, decide_eq_false hax]
      simp [hfil]

theorem ilocQ_isSome (l : List ℚ) (i : ℤ) (hl : l ≠ [])
    (h1 : -(l.length : ℤ) ≤ i) (h2 : i < (l.length : ℤ)) :
    ∃ v, ilocQ l i = some v := by
  unfold ilocQ
  by_cases h0 : 0 ≤ i
  · rw [if_pos h0]
    have hlt : i.toNat < l.length := by omega
    exact ⟨l.get ⟨i.toNat, hlt⟩, List.get?_eq_get hlt⟩
  · rw [if_neg h0]
    have hle : (-i).toNat ≤ l.length := by omega
    rw [if_pos hle]
    have hpos : 0 < l.length := List.length_pos.mpr hl
    have hlt : l.length - (-i).toNat < l.length := by omega
    exact ⟨l.get ⟨_, hlt⟩, List.get?_eq_get hlt⟩

/-- C2 counterexample: on the two-customer table with monetary 100 and 100,
the code reports customers_for_80_revenue_pct = 50 (the count of customers
whose cumulative revenue is at most 80% of total), while the spec's
smallest-prefix-reaching-80% rule gives 100. -/
theorem pareto80_spec_mismatch :
    calculateParetoDistribution [100, 100] = some (50, 100, 5) ∧
    specPareto80Pct [100, 100] = some 100 ∧ ((50 : ℚ), (100 : ℚ), (5 : ℚ)).1 < (100 : ℚ) :=
  ⟨by with_unfolding_all rfl, by with_unfolding_all rfl, by norm_num⟩

/-- C2 amended: for a non-empty table of nonnegative monetary values,
customers_for_80_revenue_pct equals the size of the LARGEST prefix of the
monetary-descending customer list whose cumulative revenue stays at or below
80% of total revenue (one fewer than the smallest prefix reaching 80%
whenever no cumulative sum hits 80% exactly), as a percentage of the
population. -/
theorem pareto80_largest_within (monetary : List ℚ)
    (hpos : ∀ v ∈ monetary, 0 ≤ v) (hne : monetary ≠ []) :
    ∃ stats : ℚ × ℚ × ℚ,
      calculateParetoDistribution monetary = some stats ∧
      stats.1 = (((cumsum (sortDesc monetary)).takeWhile
          (fun c => decide (c ≤ (sortDesc monetary).sum * (4 / 5)))).length : ℚ) /
        ((sortDesc monetary).length : ℚ) * 100 := by
  have hpos' : ∀ v ∈ sortDesc monetary, 0 ≤ v := fun v hv =>
    hpos v (mem_of_mem_sortDesc monetary v hv)
  have hlen : 0 < monetary.length := List.length_pos.mpr hne
  have hclen : (cumsum (sortDesc monetary)).length = monetary.length := by
    rw [length_cumsum, length_sortDesc]
  have hcne : cumsum (sortDesc monetary) ≠ [] :=
    List.length_pos.mp (by omega)
  have htopnn : 0 ≤ ⌊((sortDesc monetary).length : ℚ) * (1 / 5)⌋ :=
    Int.floor_nonneg.mpr (by positivity)
  have htople : ⌊((sortDesc monetary).length : ℚ) * (1 / 5)⌋ ≤ (monetary.length : ℤ) := by
    have h1 : ((sortDesc monetary).length : ℚ) * (1 / 5) ≤ ((sortDesc monetary).length : ℚ) := by
      have : (0 : ℚ) ≤ ((sortDesc monetary).length : ℚ) := by positivity
      linarith
    calc ⌊((sortDesc monetary).length : ℚ) * (1 / 5)⌋
        ≤ ⌊((sortDesc monetary).length : ℚ)⌋ := Int.floor_le_floor h1
      _ = ((sortDesc monetary).length : ℤ) := Int.floor_natCast _
      _ = (monetary.length : ℤ) := by rw [length_sortDesc]
  obtain ⟨rev, hrev⟩ := ilocQ_isSome (cumsum (sortDesc monetary))
    (⌊((sortDesc monetary).length : ℚ) * (1 / 5)⌋ - 1) hcne (by omega) (by omega)
  have hsorted : List.Sorted (· ≤ ·) (cumsum (sortDesc monetary)) :=
    sorted_cumsumFrom (sortDesc monetary) hpos' 0
  simp only [calculateParetoDistribution]
  rw [hrev]
  refine ⟨_, rfl, ?_⟩
  show ((List.filter _ (cumsum (sortDesc monetary))).length : ℚ) / _ * 100 = _
  rw [length_filter_eq_takeWhile_of_sorted _ _ hsorted]

/-- C2 amended witness at the concrete table [100, 100]. -/
theorem pareto80_largest_within_witness :
    ∃ stats : ℚ × ℚ × ℚ,
      calculateParetoDistribution [100, 100] = some stats ∧
      stats.1 = (((cumsum (sortDesc [100, 100])).takeWhile
          (fun c => decide (c ≤ (sortDesc [100, 100]).sum * (4 / 5)))).length : ℚ) /
        ((sortDesc [100, 100]).length : ℚ) * 100 :=
  pareto80_largest_within [100, 100]
    (by intro v hv; rcases List.mem_pair.mp hv with rfl | rfl <;> norm_num)
    (by simp)

theorem seqOption_isSome {α : Type} : ∀ l : List (Option α),
    (∀ x ∈ l, x.isSome = true) → ∃ v, seqOption l = some v
  | [], _ => ⟨[], rfl⟩
  | none :: t, h => absurd (h none (List.mem_cons_self _ _)) (by simp)
  | some a :: t, h => by
    obtain ⟨v, hv⟩ := seqOption_isSome t (fun x hx => h x (List.mem_cons_of_mem _ hx))
    exact ⟨a :: v, by simp [seqOption, hv]⟩

theorem quantileQ_isSome (l : List ℚ) (hl : l ≠ []) (p : ℚ) :
    ∃ v, quantileQ l p = some v := by
  match l, hl with
  | a :: t, _ => exact ⟨_, rfl⟩

theorem segmentEntry_isSome (rows : List SegmentedRow) (s : String)
    (h : ∃ r ∈ rows, r.segment = s) : ∃ st, segmentEntry rows s = some st := by
  obtain ⟨r, hr, hrs⟩ := h
  have hgrp : r ∈ rows.filter (fun r => decide (r.segment = s)) :=
    List.mem_filter.mpr ⟨hr, by simp [hrs]⟩
  have hmon : (rows.filter (fun r => decide (r.segment = s))).map (·.monetary) ≠ [] := by
    simp only [ne_eq, List.map_eq_nil_iff]
    exact List.ne_nil_of_mem hgrp
  obtain ⟨p90, hp90⟩ := quantileQ_isSome _ hmon (90 / 100)
  simp only [segmentEntry, percentileQ]
  rw [hp90]
  exact ⟨_, rfl⟩

/-- C9: for a segmented table with at least one and fewer than five
customers, _analyze_segments completes, returning a statistics result: each
per-segment group is non-empty so the 90th-percentile computation succeeds,
and the Pareto top-20% index int(n * 0.2) - 1 = -1 indexes the last
cumulative-revenue entry instead of raising. -/
theorem small_population_stats_ok (rows : List SegmentedRow)
    (h1 : 1 ≤ rows.length) (h5 : rows.length < 5) :
    ∃ res, analyzeSegments rows = some res := by
  have hstats : ∀ x ∈ (uniqueFirst (rows.map (·.segment))).map (segmentEntry rows),
      x.isSome = true := by
    intro x hx
    obtain ⟨s, hs, rfl⟩ := List.mem_map.mp hx
    obtain ⟨r, hr, hrs⟩ := List.mem_map.mp (mem_of_mem_uniqueFirst hs)
    obtain ⟨st, hst⟩ := segmentEntry_isSome rows s ⟨r, hr, hrs⟩
    simp [hst]
  obtain ⟨stats, hstats'⟩ := seqOption_isSome _ hstats
  have hslen : (sortDesc (rows.map (fun x => x.monetary))).length = rows.length := by
    rw [length_sortDesc, List.length_map]
  have hclen : (cumsum (sortDesc (rows.map (fun x => x.monetary)))).length = rows.length := by
    rw [length_cumsum, hslen]
  have hcne : cumsum (sortDesc (rows.map (fun x => x.monetary))) ≠ [] :=
    List.length_pos.mp (by omega)
  have htop : ⌊((sortDesc (rows.map (fun x => x.monetary))).length : ℚ) * (1 / 5)⌋ = 0 := by
    rw [hslen]
    have h0 : (0 : ℚ) ≤ (rows.length : ℚ) * (1 / 5) := by positivity
    have hlt : (rows.length : ℚ) * (1 / 5) < 1 := by
      have : (rows.length : ℚ) ≤ 4 := by exact_mod_cast Nat.le_of_lt_succ h5
      linarith
    exact Int.floor_eq_zero_iff.mpr ⟨h0, hlt⟩
  obtain ⟨rev, hrev⟩ := ilocQ_isSome (cumsum (sortDesc (rows.map (fun x => x.monetary))))
    (⌊((sortDesc (rows.map (fun x => x.monetary))).length : ℚ) * (1 / 5)⌋ - 1)
    hcne (by omega) (by omega)
  simp only [analyzeSegments, hstats', calculateParetoDistribution]
  rw [hrev]
  exact ⟨_, rfl⟩

/-- C9 witness: a concrete three-customer segmented table. -/
theorem small_population_stats_ok_witness :
    ∃ res, analyzeSegments
      [⟨"a", 1, 1, 50, "Lost"⟩, ⟨"b", 2, 1, 30, "Lost"⟩, ⟨"c", 3, 2, 20, "Champions"⟩] =
        some res :=
  small_population_stats_ok
    [⟨"a", 1, 1, 50, "Lost"⟩, ⟨"b", 2, 1, 30, "Lost"⟩, ⟨"c", 3, 2, 20, "Champions"⟩]
    (by simp) (by simp)

/-- C8 witness: one valid order row; the resulting metrics row has
frequency 1 and monetary 5. -/
theorem metrics_freq_monetary_pos_witness :
    1 ≤ (⟨"a", 90, 1, 5⟩ : MetricsRow).frequency ∧
      0 < (⟨"a", 90, 1, 5⟩ : MetricsRow).monetary :=
  metrics_freq_monetary_pos 100 100 [⟨"a", 10, 5⟩] ⟨"a", 90, 1, 5⟩ (by
    have h : calculateRfmMetrics 100 (prepareData 100 [⟨"a", 10, 5⟩]) = [⟨"a", 90, 1, 5⟩] := by
      with_unfolding_all rfl
    rw [h]
    exact List.mem_singleton.mpr rfl)

end Olist
